import Mathlib

/-
  Verification development for the auto-classifier plugin.

  The embedding models the request/response pipeline of the plugin:
  the prompt templater and response validator/aggregator of
  src/main.ts (the version with classifyFile), the output formatter
  ViewManager.preprocessOutput of src/view-manager.ts, and the
  chat-completion client ChatGPT.callAPI of src/api.ts.

  Strings are modelled as lists of characters.  JSON numbers are
  modelled as exact rationals (the source works with JavaScript
  doubles; all thresholds and example values used in the claims are
  exactly representable and compared the same way in both models).
-/

namespace AutoClassifier

/-- Character-list model of JavaScript strings. -/
abbrev Str := List Char

/-- The space character (U+0020). -/
def spC : Char := Char.ofNat 32

/-- The double-quote character (U+0022). -/
def quoteC : Char := Char.ofNat 34

/-- The backslash character (U+005C). -/
def bslashC : Char := Char.ofNat 92

/-- The opening curly brace character (U+007B). -/
def lbrC : Char := Char.ofNat 123

/-- The closing curly brace character (U+007D). -/
def rbrC : Char := Char.ofNat 125

/-- The apostrophe character (U+0027). -/
def apostC : Char := Char.ofNat 39

/-- The grave-accent character (U+0060). -/
def btickC : Char := Char.ofNat 96

/-- JSON values as produced by `JSON.parse`.  Numbers are modelled as
exact rationals. -/
inductive Json where
  | null : Json
  | bool (b : Bool) : Json
  | num (q : ℚ) : Json
  | str (s : Str) : Json
  | arr (elems : List Json) : Json
  | obj (fields : List (Str × Json)) : Json

/-- JavaScript truthiness of a JSON value (`!v` is the negation of
this).  `null`, `false`, `0` and the empty string are falsy; arrays
and objects are always truthy.  The model has no NaN: JSON numbers are
exact rationals. -/
def Json.truthy : Json → Bool
  | .null => false
  | .bool b => b
  | .num q => decide (q ≠ 0)
  | .str s => decide (s ≠ [])
  | .arr _ => true
  | .obj _ => true

/-- JavaScript property access `e[k]` on a parsed JSON value: a lookup
in the field list of an object (the last binding wins, as in
`JSON.parse` with duplicate keys), and `undefined` (modelled as
`none`) on every non-object. -/
def getField (e : Json) (k : Str) : Option Json :=
  match e with
  | .obj fields => (fields.reverse.find? (fun p => decide (p.1 = k))).map (fun p => p.2)
  | _ => none

/-- Truthiness of `e[k]`: a missing field is `undefined`, which is
falsy. -/
def fieldTruthy (e : Json) (k : Str) : Bool :=
  match getField e k with
  | some v => v.truthy
  | none => false

/-- JavaScript `ToNumber` coercion of a JSON value, `none` standing
for NaN.  String and container coercions are not modelled (for plain
objects JavaScript also yields NaN); the claim theorems restrict
reliability fields to JSON numbers. -/
def Json.toNumber : Json → Option ℚ
  | .num q => some q
  | .bool b => some (if b then 1 else 0)
  | .null => some 0
  | _ => none

/-- The JavaScript comparison `v <= q` for a JSON value `v` and a
numeric literal `q`: a NaN operand makes the comparison false. -/
def jsLeNum (v : Json) (q : ℚ) : Bool :=
  match v.toNumber with
  | some r => decide (r ≤ q)
  | none => false

/-- Output types of the plugin.  Modelled from the spec: the
enumeration `OutType` is declared in the settings module, which is not
among the source files; the spec lists its members as Tag, Wikilink,
FrontMatter, Title. -/
inductive OutType where
  | Tag : OutType
  | Wikilink : OutType
  | FrontMatter : OutType
  | Title : OutType
deriving DecidableEq

/-- Replaces every space by an underscore: the effect of
`output.replace(/ /g, "_")` in the source. -/
def replaceSpaces (s : Str) : Str :=
  s.map (fun c => if c = spC then '_' else c)

/-- Embedding of `ViewManager.preprocessOutput` (src/view-manager.ts).
The local variable `output` starts as the empty string, is assigned
only in the Tag and Wikilink branches, and is returned unchanged (that
is, empty) for the FrontMatter and Title output types. -/
def preprocessOutput (value : Str) (outType : OutType) (pre suf : Str) : Str :=
  if outType = OutType.Tag then
    '#' :: replaceSpaces (pre ++ value ++ suf)
  else if outType = OutType.Wikilink then
    '[' :: '[' :: (pre ++ value ++ suf) ++ [']', ']']
  else
    []

/-! ### A model of `JSON.parse`

The source feeds the raw API reply to the host runtime's `JSON.parse`
and distinguishes a parse failure from a parse that does not yield an
array.  The parser below follows the JSON grammar (ECMA-404): optional
whitespace, `null` / `true` / `false`, double-quoted strings with the
standard escapes, numbers without leading zeros, arrays and objects.
It is written with explicit fuel so that it is structurally recursive
and evaluates inside the kernel. -/

/-- JSON whitespace: space, tab, line feed, carriage return. -/
def isWsC (c : Char) : Bool :=
  c.val = 32 ∨ c.val = 9 ∨ c.val = 10 ∨ c.val = 13

/-- Drops leading JSON whitespace. -/
def skipWs (s : Str) : Str :=
  s.dropWhile isWsC

/-- Numeric value of a hexadecimal digit. -/
def hexVal (c : Char) : Option ℕ :=
  if '0' ≤ c ∧ c ≤ '9' then some (c.val.toNat - 48)
  else if 'a' ≤ c ∧ c ≤ 'f' then some (c.val.toNat - 87)
  else if 'A' ≤ c ∧ c ≤ 'F' then some (c.val.toNat - 55)
  else none

/-- Parses the body of a JSON string after the opening quote, up to and
including the closing quote, decoding the standard escapes. -/
def parseStrBody : ℕ → Str → Option (Str × Str)
  | 0, _ => none
  | _ + 1, [] => none
  | f + 1, c :: r =>
    if c = quoteC then some ([], r)
    else if c = bslashC then
      match r with
      | [] => none
      | d :: r2 =>
        if d = quoteC then
          (parseStrBody f r2).map (fun p => (quoteC :: p.1, p.2))
        else if d = bslashC then
          (parseStrBody f r2).map (fun p => (bslashC :: p.1, p.2))
        else if d = '/' then
          (parseStrBody f r2).map (fun p => ('/' :: p.1, p.2))
        else if d = 'b' then
          (parseStrBody f r2).map (fun p => (Char.ofNat 8 :: p.1, p.2))
        else if d = 'f' then
          (parseStrBody f r2).map (fun p => (Char.ofNat 12 :: p.1, p.2))
        else if d = 'n' then
          (parseStrBody f r2).map (fun p => (Char.ofNat 10 :: p.1, p.2))
        else if d = 'r' then
          (parseStrBody f r2).map (fun p => (Char.ofNat 13 :: p.1, p.2))
        else if d = 't' then
          (parseStrBody f r2).map (fun p => (Char.ofNat 9 :: p.1, p.2))
        else if d = 'u' then
          match r2 with
          | h1 :: h2 :: h3 :: h4 :: r3 =>
            match hexVal h1, hexVal h2, hexVal h3, hexVal h4 with
            | some v1, some v2, some v3, some v4 =>
              (parseStrBody f r3).map
                (fun p => (Char.ofNat (((v1 * 16 + v2) * 16 + v3) * 16 + v4) :: p.1, p.2))
            | _, _, _, _ => none
          | _ => none
        else none
    else if c.val < 32 then none
    else (parseStrBody f r).map (fun p => (c :: p.1, p.2))

/-- Value of a list of decimal digits. -/
def digitsVal (ds : Str) : ℕ :=
  ds.foldl (fun a c => a * 10 + (c.val.toNat - 48)) 0

/-- Parses a JSON number (sign, integer part without leading zeros,
optional fraction, optional exponent).  Purely lexical, no fuel
needed. -/
def parseNum (s : Str) : Option (ℚ × Str) :=
  let (sgn, s1) :=
    match s with
    | '-' :: r => ((-1 : ℤ), r)
    | _ => ((1 : ℤ), s)
  let intDigits := s1.takeWhile Char.isDigit
  let s2 := s1.dropWhile Char.isDigit
  if intDigits = [] then none
  else if intDigits.length > 1 ∧ intDigits.take 1 = ['0'] then none
  else
    let (fracDigits, s3) :=
      match s2 with
      | '.' :: r =>
        (r.takeWhile Char.isDigit, r.dropWhile Char.isDigit)
      | _ => ([], s2)
    if s2 ≠ [] ∧ s2.take 1 = ['.'] ∧ fracDigits = [] then none
    else
      let hasExp :=
        match s3 with
        | 'e' :: _ => true
        | 'E' :: _ => true
        | _ => false
      let (expSgn, s4) :=
        match s3 with
        | _ :: '+' :: r => ((1 : ℤ), r)
        | _ :: '-' :: r => ((-1 : ℤ), r)
        | _ :: r => ((1 : ℤ), r)
        | [] => ((1 : ℤ), [])
      if hasExp then
        let expDigits := s4.takeWhile Char.isDigit
        let s5 := s4.dropWhile Char.isDigit
        if expDigits = [] then none
        else
          let mant : ℤ := sgn * ((digitsVal intDigits) * 10 ^ fracDigits.length + digitsVal fracDigits)
          let e : ℤ := expSgn * digitsVal expDigits
          let scaled : ℚ :=
            Rat.divInt (mant * 10 ^ e.toNat) (10 ^ fracDigits.length * 10 ^ (-e).toNat)
          some (scaled, s5)
      else
        let mant : ℤ := sgn * ((digitsVal intDigits) * 10 ^ fracDigits.length + digitsVal fracDigits)
        some (Rat.divInt mant (10 ^ fracDigits.length), s3)

mutual

/-- Parses one JSON value (after skipping leading whitespace),
returning it together with the unconsumed remainder. -/
def parseValueF : ℕ → Str → Option (Json × Str)
  | 0, _ => none
  | f + 1, s0 =>
    match skipWs s0 with
    | [] => none
    | c :: rest =>
      if c = 'n' then
        if (c :: rest).take 4 = "null".data then some (.null, (c :: rest).drop 4) else none
      else if c = 't' then
        if (c :: rest).take 4 = "true".data then some (.bool true, (c :: rest).drop 4) else none
      else if c = 'f' then
        if (c :: rest).take 5 = "false".data then some (.bool false, (c :: rest).drop 5) else none
      else if c = quoteC then
        (parseStrBody (f + 1) rest).map (fun p => (.str p.1, p.2))
      else if c = '[' then
        match skipWs rest with
        | ']' :: r2 => some (.arr [], r2)
        | r1 =>
          match parseElemsF f r1 with
          | some (es, r) => some (.arr es, r)
          | none => none
      else if c = lbrC then
        match skipWs rest with
        | b :: r2 =>
          if b = rbrC then some (.obj [], r2)
          else
            match parseMembersF f (b :: r2) with
            | some (fs, r) => some (.obj fs, r)
            | none => none
        | [] => none
      else
        match parseNum (c :: rest) with
        | some (q, r) => some (.num q, r)
        | none => none

/-- Parses the elements of a non-empty JSON array, including the
closing bracket. -/
def parseElemsF : ℕ → Str → Option (List Json × Str)
  | 0, _ => none
  | f + 1, s =>
    match parseValueF f s with
    | none => none
    | some (v, r) =>
      match skipWs r with
      | ',' :: r2 =>
        match parseElemsF f r2 with
        | some (es, r3) => some (v :: es, r3)
        | none => none
      | ']' :: r2 => some ([v], r2)
      | _ => none

/-- Parses the members of a non-empty JSON object, including the
closing brace. -/
def parseMembersF : ℕ → Str → Option (List (Str × Json) × Str)
  | 0, _ => none
  | f + 1, s =>
    match skipWs s with
    | c :: rest =>
      if c = quoteC then
        match parseStrBody (f + 1) rest with
        | none => none
        | some (key, r1) =>
          match skipWs r1 with
          | ':' :: r2 =>
            match parseValueF f r2 with
            | none => none
            | some (v, r3) =>
              match skipWs r3 with
              | ',' :: r4 =>
                match parseMembersF f r4 with
                | some (fs, r5) => some ((key, v) :: fs, r5)
                | none => none
              | b :: r4 =>
                if b = rbrC then some ([(key, v)], r4) else none
              | [] => none
          | _ => none
      else none
    | [] => none

end

/-- The model of `JSON.parse`: parses one value and requires that only
whitespace remains; `none` models a thrown `SyntaxError`. -/
def jsonParse (raw : Str) : Option Json :=
  match parseValueF (2 * raw.length + 4) raw with
  | some (v, rest) => if skipWs rest = [] then some v else none
  | none => none

/-! ### Response validator / aggregator

Embedding of the response handling loop of `classifyFile`
(src/main.ts, lines 203-229): parse the raw reply, require an array,
then fold over the entries building the tag string, skipping entries
that fail the truthiness format check or have low reliability.  The
variant orchestrator `classifyTag` of the second file version aborts
on the first bad entry instead; it is embedded separately. -/

/-- The failure kinds of the validation step: `JSON.parse` throwing
(the `catch` branch, malformed JSON), versus a parse result that is
not an array (the `!Array.isArray` branch). -/
inductive VErr where
  | malformedJSON : VErr
  | unexpectedShape : VErr
deriving DecidableEq

/-- Embedding of the parse-and-require-array step of `classifyFile`:
`JSON.parse(responseRaw)` inside `try`, then `Array.isArray`. -/
def parseResponseList (raw : Str) : Except VErr (List Json) :=
  match jsonParse raw with
  | none => .error .malformedJSON
  | some (.arr es) => .ok es
  | some _ => .error .unexpectedShape

/-- The key `"reliability"`. -/
def relKey : Str := "reliability".data

/-- The key `"output"`. -/
def outKey : Str := "output".data

/-- The format check of the source,
`!response || !response.reliability || !response.output`, negated:
`true` when the entry is truthy and has truthy `reliability` and
`output` members. -/
def entryFormatOk (e : Json) : Bool :=
  e.truthy && fieldTruthy e relKey && fieldTruthy e outKey

/-- The low-reliability check of the source,
`response.reliability <= 0.2`.  A missing member is `undefined`, which
compares false. -/
def entryLowRel (e : Json) : Bool :=
  match getField e relKey with
  | some v => jsLeNum v (mkRat 1 5)
  | none => false

/-- An entry survives validation: it passes the format check and is
not low-reliability. -/
def entrySurvives (e : Json) : Bool :=
  entryFormatOk e && !entryLowRel e

/-- The string value of the `output` member.  The claims and theorems
only consider entries whose `output` member is a JSON string, so the
JavaScript number-to-string coercion of `response.output + '-GPT'` is
not modelled; see `entryWellTyped`. -/
def outputStrOf (e : Json) : Str :=
  match getField e outKey with
  | some (.str s) => s
  | _ => []

/-- The rational value of the `reliability` member when it is a JSON
number, `0` otherwise (only used under `entryWellTyped`). -/
def relQOf (e : Json) : ℚ :=
  match getField e relKey with
  | some (.num q) => q
  | _ => 0

/-- The typing envelope of the claim theorems: when present, the
`reliability` member is a JSON number and the `output` member a JSON
string.  Inside this envelope the embedding agrees with the JavaScript
coercions of the source. -/
def entryWellTyped (e : Json) : Bool :=
  (match getField e relKey with
   | some (.num _) => true
   | none => true
   | _ => false) &&
  (match getField e outKey with
   | some (.str _) => true
   | none => true
   | _ => false)

/-- The slice of `CommandOption` that the aggregation loop uses. -/
structure OutCfg where
  outType : OutType
  outPre : Str
  outSuf : Str

/-- The name of the note ensured for a surviving entry:
`response.output + '-GPT'`. -/
def outputNameOf (e : Json) : Str :=
  outputStrOf e ++ "-GPT".data

/-- The formatted token appended to the aggregate for a surviving
entry. -/
def tokenOf (cfg : OutCfg) (e : Json) : Str :=
  preprocessOutput (outputNameOf e) cfg.outType cfg.outPre cfg.outSuf

/-- The fixed marker that starts every aggregate string. -/
def marker : Str := " #auto-classifier ".data

/-- One step of the aggregation loop of `classifyFile` (src/main.ts
lines 215-229): accumulates the tag string and, in order, the names
passed to `createNoteIfNotExist`. -/
def entryStep (cfg : OutCfg) (acc : Str × List Str) (e : Json) : Str × List Str :=
  if !entryFormatOk e then acc
  else if entryLowRel e then acc
  else (acc.1 ++ tokenOf cfg e ++ [spC], acc.2 ++ [outputNameOf e])

/-- The aggregation loop of `classifyFile`: starting from the marker,
folds `entryStep` over the parsed entries.  Returns the final tag
string and the ensured note names. -/
def processEntries (cfg : OutCfg) (entries : List Json) : Str × List Str :=
  entries.foldl (entryStep cfg) (marker, [])

/-- The aggregation loop of the variant `classifyTag` orchestrator
(src/main.ts lines 523-538 of the second file version): identical
accumulation, but a format failure or a low-reliability entry aborts
the whole item (`return`) instead of being skipped. -/
def processEntriesTag (cfg : OutCfg) : List Json → (Str × List Str) → Option (Str × List Str)
  | [], acc => some acc
  | e :: rest, acc =>
    if !entryFormatOk e then none
    else if entryLowRel e then none
    else processEntriesTag cfg rest (acc.1 ++ tokenOf cfg e ++ [spC], acc.2 ++ [outputNameOf e])

/-! ### Prompt templater

Embedding of the three `user_prompt.replace(...)` calls of
`classifyFile` (src/main.ts lines 176-179).  JavaScript
`String.prototype.replace` with a string pattern replaces the first
occurrence only, and interprets `$`-sequences in the replacement
string (`$$`, `$&`, a dollar followed by a grave accent, a dollar
followed by an apostrophe); with a string pattern there are no capture
groups, so `$<digit>` stays literal. -/

/-- The pattern occurs in `s` at position `i`. -/
def MatchAt (s pat : Str) (i : ℕ) : Prop :=
  (s.drop i).take pat.length = pat

instance (s pat : Str) (i : ℕ) : Decidable (MatchAt s pat i) := by
  unfold MatchAt; infer_instance

/-- Index of the first occurrence of `pat` in `s`
(JavaScript `indexOf`), `none` when there is no occurrence. -/
def firstOccAux (pat : Str) : Str → Option ℕ
  | [] => if pat = [] then some 0 else none
  | c :: rest =>
    if (c :: rest).take pat.length = pat then some 0
    else (firstOccAux pat rest).map (· + 1)

/-- ECMAScript `GetSubstitution` for a string pattern: expands `$$`,
`$&` (the matched pattern), dollar-grave-accent (the part before the
match) and dollar-apostrophe (the part after the match); any other
character after `$`, or a trailing `$`, stays literal. -/
def substDollar (m bef aft : Str) : Str → Str
  | [] => []
  | [c] => [c]
  | c :: d :: rest =>
    if c = '$' then
      if d = '$' then '$' :: substDollar m bef aft rest
      else if d = '&' then m ++ substDollar m bef aft rest
      else if d = btickC then bef ++ substDollar m bef aft rest
      else if d = apostC then aft ++ substDollar m bef aft rest
      else c :: substDollar m bef aft (d :: rest)
    else c :: substDollar m bef aft (d :: rest)

/-- JavaScript `s.replace(pat, rep)` with string arguments: replaces
the first occurrence of `pat`, applying `GetSubstitution` to `rep`;
returns `s` unchanged when `pat` does not occur. -/
def jsReplaceFirst (s pat rep : Str) : Str :=
  match firstOccAux pat s with
  | none => s
  | some i =>
    s.take i ++ substDollar pat (s.take i) (s.drop (i + pat.length)) rep ++ s.drop (i + pat.length)

/-- Decimal digits of `n`, most significant first, by repeated
division (fuel-structural so that it evaluates in the kernel).
Models JavaScript `Number.prototype.toString` for natural numbers. -/
def natDigitsAux : ℕ → ℕ → Str → Str
  | 0, _, acc => acc
  | f + 1, n, acc =>
    let acc1 := Nat.digitChar (n % 10) :: acc
    if n < 10 then acc1 else natDigitsAux f (n / 10) acc1

/-- Decimal string of a natural number. -/
def natDigits (n : ℕ) : Str :=
  natDigitsAux (n + 1) n []

/-- The rendering of `max_tags`:
`max_tags === 0 ? 'unlimited' : max_tags.toString()`. -/
def maxTagsStr (n : ℕ) : Str :=
  if n = 0 then "unlimited".data else natDigits n

/-- JavaScript `refs.join(',')`. -/
def joinComma : List Str → Str
  | [] => []
  | [x] => x
  | x :: xs => x ++ ',' :: joinComma xs

/-- The `\x7b\x7binput\x7d\x7d` placeholder. -/
def phInput : Str := "\x7b\x7binput\x7d\x7d".data

/-- The `\x7b\x7breference\x7d\x7d` placeholder. -/
def phRef : Str := "\x7b\x7breference\x7d\x7d".data

/-- The `\x7b\x7bmax_tags\x7d\x7d` placeholder. -/
def phMax : Str := "\x7b\x7bmax_tags\x7d\x7d".data

/-- Embedding of the prompt construction of `classifyFile`
(src/main.ts lines 176-179): three successive first-occurrence
replacements, in the order input, reference, max_tags. -/
def renderPrompt (tmpl input : Str) (refs : List Str) (maxTags : ℕ) : Str :=
  let s1 := jsReplaceFirst tmpl phInput input
  let s2 := jsReplaceFirst s1 phRef (joinComma refs)
  jsReplaceFirst s2 phMax (maxTagsStr maxTags)

/-! ### Chat-completion client

Embedding of `ChatGPT.callAPI` (src/api.ts).  The network is
abstracted as a transport function from the attempt index to an
outcome; the cancellation signal as a function from the attempt index
to whether `abortSignal.aborted` reads true at the top of that
attempt.  The trace records the thrown-or-returned result, the number
of network attempts actually issued, and the list of backoff sleeps in
milliseconds. -/

/-- Outcome of one network attempt: a well-formed success whose first
choice's message content is `content`; an HTTP 429 rejection
(`error.status === 429`); or any other failure (network error, other
non-2xx status, or a malformed response body, which throws inside the
`try` without a 429 status). -/
inductive Outcome where
  | success (content : Str) : Outcome
  | rateLimited : Outcome
  | failure : Outcome

/-- Result of `callAPI`: the returned content, the thrown
`Error('Aborted')`, or the thrown
`Error('Max retries reached. Unable to complete the request.')` (the
latter is reached both when the attempt budget is exhausted and after
`break` on a non-429 failure). -/
inductive CallResult where
  | ok (content : Str) : CallResult
  | abortedError : CallResult
  | maxRetriesError : CallResult

/-- Execution trace of `callAPI`. -/
structure CallTrace where
  result : CallResult
  calls : ℕ
  sleeps : List ℕ

/-- The retry loop of `callAPI`, starting at attempt index `a` with
`fuel` remaining attempts.  Mirrors the source: check the signal,
issue the request, return on success, sleep `2^attempt * 2000` ms and
continue on status 429, `break` (then throw max-retries) on any other
failure, and throw max-retries when the budget runs out. -/
def callAPIAux (t : ℕ → Outcome) (sig : ℕ → Bool) : ℕ → ℕ → CallTrace
  | _, 0 => ⟨.maxRetriesError, 0, []⟩
  | a, f + 1 =>
    if sig a then ⟨.abortedError, 0, []⟩
    else
      match t a with
      | .success content => ⟨.ok content, 1, []⟩
      | .rateLimited =>
        let rest := callAPIAux t sig (a + 1) f
        ⟨rest.result, rest.calls + 1, (2 ^ a * 2000) :: rest.sleeps⟩
      | .failure => ⟨.maxRetriesError, 1, []⟩

/-- Embedding of `ChatGPT.callAPI` with `retries` attempts. -/
def callAPI (t : ℕ → Outcome) (sig : ℕ → Bool) (retries : ℕ) : CallTrace :=
  callAPIAux t sig 0 retries

/-- The default retry budget of the source (`retries = 5`). -/
def defaultRetries : ℕ := 5

/-! ### Orchestrator

Embedding of `classifyTag` / `classifyFile` of src/main.ts (first file
version) for a single file: the configuration checks, the per-input
loop (render the prompt, call the API, validate, aggregate, ensure
placeholder notes, insert the aggregate).  Document insertion is the
external Document Adapter; an insertion is recorded as the inserted
aggregate string.  The vault is the list of existing note paths. -/

/-- The slice of the settings/`CommandOption` bundle the pipeline
reads. -/
structure PipeCfg where
  template : Str
  maxTags : ℕ
  outType : OutType
  outPre : Str
  outSuf : Str

/-- The note path used by `createNoteIfNotExist`:
`Topics/GPT/<name>.md`. -/
def notePath (name : Str) : Str :=
  "Topics/GPT/".data ++ name ++ ".md".data

/-- Embedding of `createNoteIfNotExist`: creates the note file unless
a file with that path already exists. -/
def createNoteIfNotExist (vault : List Str) (name : Str) : List Str :=
  if vault.contains (notePath name) then vault else vault ++ [notePath name]

/-- Observable trace of processing one file. -/
structure FileTrace where
  apiCalls : ℕ
  edits : List Str
  ensures : List Str
  vault : List Str

/-- The per-input loop of `classifyFile`.  `api inIdx prompt` is the
transport seen by the `inIdx`-th input when the rendered prompt is
`prompt`; `sigs inIdx` is the cancellation signal read by its
attempts.  An empty input, an API error, an empty response or a
validation failure skips the input (`continue`). -/
def classifyFileGo (cfg : PipeCfg) (refs : List Str) (api : ℕ → Str → ℕ → Outcome)
    (sigs : ℕ → ℕ → Bool) : List Str → ℕ → FileTrace → FileTrace
  | [], _, acc => acc
  | input :: rest, inIdx, acc =>
    if input = [] then classifyFileGo cfg refs api sigs rest (inIdx + 1) acc
    else
      let prompt := renderPrompt cfg.template input refs cfg.maxTags
      let tr := callAPI (api inIdx prompt) (sigs inIdx) defaultRetries
      let acc1 : FileTrace := { acc with apiCalls := acc.apiCalls + tr.calls }
      match tr.result with
      | .ok raw =>
        if raw = [] then classifyFileGo cfg refs api sigs rest (inIdx + 1) acc1
        else
          match parseResponseList raw with
          | .error _ => classifyFileGo cfg refs api sigs rest (inIdx + 1) acc1
          | .ok entries =>
            let out := processEntries ⟨cfg.outType, cfg.outPre, cfg.outSuf⟩ entries
            classifyFileGo cfg refs api sigs rest (inIdx + 1)
              { apiCalls := acc1.apiCalls
                edits := acc1.edits ++ [out.1]
                ensures := acc1.ensures ++ out.2
                vault := out.2.foldl createNoteIfNotExist acc1.vault }
      | _ => classifyFileGo cfg refs api sigs rest (inIdx + 1) acc1

/-- Outcome of the `classifyTag` command. -/
inductive RunOutcome where
  | configError : RunOutcome
  | completed : RunOutcome

/-- Observable trace of the `classifyTag` command. -/
structure RunTrace where
  outcome : RunOutcome
  trace : FileTrace

/-- Embedding of the head of `classifyTag` (src/main.ts lines
257-270) followed by the single-file pipeline: the API-key check
(`!this.settings.apiKey`), then the reference check
(`commandOption.useRef && (!refs || refs.length == 0)`); either
failure surfaces a notice and returns before any API call or document
access.  `refs = none` models an undefined reference list. -/
def classifyTagRun (apiKey : Str) (useRef : Bool) (refs : Option (List Str)) (cfg : PipeCfg)
    (inputs : List Str) (api : ℕ → Str → ℕ → Outcome) (sigs : ℕ → ℕ → Bool)
    (vault0 : List Str) : RunTrace :=
  if apiKey = [] then ⟨.configError, ⟨0, [], [], vault0⟩⟩
  else if useRef && (match refs with | none => true | some l => l.isEmpty) then
    ⟨.configError, ⟨0, [], [], vault0⟩⟩
  else
    ⟨.completed, classifyFileGo cfg (refs.getD []) api sigs inputs 0 ⟨0, [], [], vault0⟩⟩

/-! ### Remaining definitions used by the claim theorems -/

/-- The branch the aggregation loop takes for one entry, in source
order: the format warning (`is not expected format`), the
low-reliability warning, or acceptance. -/
inductive EntryBranch where
  | notExpectedFormat : EntryBranch
  | lowReliability : EntryBranch
  | accepted : EntryBranch
deriving DecidableEq

/-- Which branch of the loop body of `classifyFile` (src/main.ts lines
215-229) an entry takes: first the truthiness format check, then the
`reliability <= 0.2` check. -/
def entryBranch (e : Json) : EntryBranch :=
  if !entryFormatOk e then .notExpectedFormat
  else if entryLowRel e then .lowReliability
  else .accepted

/-- Entries of the validator scenario: one surviving entry, one
low-reliability entry, one entry with a missing `output` member. -/
def c3Entries : List Json :=
  [.obj [(relKey, .num (mkRat 9 10)), (outKey, .str "Animals".data)],
   .obj [(relKey, .num (mkRat 1 10)), (outKey, .str "Bar".data)],
   .obj [(relKey, .num (mkRat 9 10))]]

/-- Command options for the end-to-end scenario: a template containing
all three placeholders, Tag output type, no prefix or suffix. -/
def c8Cfg : PipeCfg :=
  ⟨"Classify: \x7b\x7binput\x7d\x7d refs \x7b\x7breference\x7d\x7d max \x7b\x7bmax_tags\x7d\x7d".data,
   3, .Tag, [], []⟩

/-- The mocked API reply of the end-to-end scenario. -/
def c8Reply : Str := "[\x7b\"reliability\":0.9,\"output\":\"Animals\"\x7d]".data

/-- The mocked transport of the end-to-end scenario: succeeds with
`c8Reply` exactly when it receives the correctly rendered prompt. -/
def c8Api : ℕ → Str → ℕ → Outcome := fun _ prompt _ =>
  if prompt = "Classify: some text refs a max 3".data then .success c8Reply else .failure

/-! ## Theorems for the claims -/

/-- Claim C1, counterexample.  The claim states that for the
FrontMatter and Title output types the formatter returns the raw
prefix+name+suffix string unchanged; in the source the `output`
variable is only assigned in the Tag and Wikilink branches, so both
types yield the empty string.  At name `"A"`, prefix `"p"`, suffix
`"s"` the formatter returns `""`, not `"pAs"`. -/
theorem preprocessOutput_c1_cex :
    preprocessOutput "A".data .FrontMatter "p".data "s".data = []
    ∧ preprocessOutput "A".data .Title "p".data "s".data = []
    ∧ ([] : Str) ≠ "pAs".data := by
  exact ⟨rfl, rfl, by decide⟩

/-- Claim C1, amended.  For every name, prefix and suffix: for the Tag
output type the formatter prepends `#` to prefix+name+suffix with
every space replaced by an underscore (so the result contains no
space); for Wikilink it wraps prefix+name+suffix in double brackets;
for FrontMatter and Title it returns the empty string. -/
theorem preprocessOutput_c1 (value pre suf : Str) :
    preprocessOutput value .Tag pre suf =
      '#' :: (pre ++ value ++ suf).map (fun c => if c = spC then '_' else c)
    ∧ spC ∉ preprocessOutput value .Tag pre suf
    ∧ preprocessOutput value .Wikilink pre suf =
      '[' :: '[' :: (pre ++ value ++ suf) ++ [']', ']']
    ∧ preprocessOutput value .FrontMatter pre suf = []
    ∧ preprocessOutput value .Title pre suf = [] := by
  refine ⟨rfl, ?_, rfl, rfl, rfl⟩
  intro hmem
  have hrw : preprocessOutput value .Tag pre suf =
      '#' :: (pre ++ value ++ suf).map (fun c => if c = spC then '_' else c) := rfl
  rw [hrw] at hmem
  rcases List.mem_cons.mp hmem with h | h
  · exact absurd h (by decide)
  · obtain ⟨a, _, hfa⟩ := List.mem_map.mp h
    by_cases ha : a = spC
    · rw [if_pos ha] at hfa
      exact absurd hfa (by decide)
    · rw [if_neg ha] at hfa
      exact ha hfa

/-- Claim C7.  The validator fails with `malformedJSON` exactly when
`JSON.parse` throws (for example on `"not json"`), and with the
distinct failure `unexpectedShape` when the parse yields a non-array
(for example on the object `"(not:array)"` example of the spec); on an
array it succeeds with the element list. -/
theorem parseResponseList_c7 :
    parseResponseList "not json".data = .error .malformedJSON
    ∧ parseResponseList "\x7b\"not\":\"array\"\x7d".data = .error .unexpectedShape
    ∧ VErr.malformedJSON ≠ VErr.unexpectedShape
    ∧ (∀ raw : Str, jsonParse raw = none → parseResponseList raw = .error .malformedJSON)
    ∧ (∀ (raw : Str) (es : List Json), jsonParse raw = some (.arr es) →
        parseResponseList raw = .ok es)
    ∧ (∀ (raw : Str) (v : Json), jsonParse raw = some v → (∀ es, v ≠ .arr es) →
        parseResponseList raw = .error .unexpectedShape) := by
  refine ⟨rfl, rfl, by decide, ?_, ?_, ?_⟩
  · intro raw h
    simp [parseResponseList, h]
  · intro raw es h
    simp [parseResponseList, h]
  · intro raw v h hv
    cases v with
    | arr es => exact absurd rfl (hv es)
    | null => simp [parseResponseList, h]
    | bool b => simp [parseResponseList, h]
    | num q => simp [parseResponseList, h]
    | str s => simp [parseResponseList, h]
    | obj fs => simp [parseResponseList, h]

/-- Witness for C7: the empty-array reply is accepted with an empty
entry list. -/
theorem parseResponseList_c7_witness :
    parseResponseList "[]".data = .ok ([] : List Json) :=
  parseResponseList_c7.2.2.2.2.1 "[]".data [] rfl

/-- Claim C9.  With an empty API key, or with `useRef` enabled and a
missing or empty reference list, the command returns right after the
configuration notice: zero API calls, no document edits, no ensured
notes, and an unchanged vault. -/
theorem classifyTagRun_c9 (apiKey : Str) (useRef : Bool) (refs : Option (List Str))
    (cfg : PipeCfg) (inputs : List Str) (api : ℕ → Str → ℕ → Outcome)
    (sigs : ℕ → ℕ → Bool) (vault0 : List Str)
    (h : apiKey = [] ∨ (useRef = true ∧ (refs = none ∨ refs = some []))) :
    classifyTagRun apiKey useRef refs cfg inputs api sigs vault0 =
      ⟨.configError, ⟨0, [], [], vault0⟩⟩ := by
  rcases h with h | ⟨hu, hr⟩
  · simp [classifyTagRun, h]
  · rcases hr with rfl | rfl <;> by_cases hk : apiKey = [] <;>
      simp [classifyTagRun, hk, hu]

/-- Witness for C9: enabled references with an undefined reference
list abort the command with an untouched trace. -/
theorem classifyTagRun_c9_witness :
    classifyTagRun "key".data true none ⟨[], 0, .Tag, [], []⟩ ["i".data]
      (fun _ _ _ => .failure) (fun _ _ => false) ["v.md".data] =
      ⟨.configError, ⟨0, [], [], ["v.md".data]⟩⟩ :=
  classifyTagRun_c9 "key".data true none ⟨[], 0, .Tag, [], []⟩ ["i".data]
    (fun _ _ _ => .failure) (fun _ _ => false) ["v.md".data]
    (Or.inr ⟨rfl, Or.inl rfl⟩)

/-- Claim C10.  An entry whose `reliability` member is exactly `0`, or
whose `output` member is the empty string, fails the truthiness
presence check and takes the `not expected format` branch; it is never
classified as low-reliability. -/
theorem entryBranch_c10 (e1 e2 : Json)
    (h1 : getField e1 relKey = some (.num 0))
    (h2 : getField e2 outKey = some (.str [])) :
    entryBranch e1 = .notExpectedFormat ∧ entryBranch e2 = .notExpectedFormat := by
  constructor
  · have hrel : fieldTruthy e1 relKey = false := by
      simp [fieldTruthy, h1, Json.truthy]
    simp [entryBranch, entryFormatOk, hrel]
  · have hout : fieldTruthy e2 outKey = false := by
      simp [fieldTruthy, h2, Json.truthy]
    simp [entryBranch, entryFormatOk, hout]

/-- Witness for C10: a zero-reliability entry and an empty-output
entry both take the format branch. -/
theorem entryBranch_c10_witness :
    entryBranch (.obj [(relKey, .num 0), (outKey, .str "x".data)]) = .notExpectedFormat
    ∧ entryBranch (.obj [(relKey, .num (mkRat 9 10)), (outKey, .str [])]) =
      .notExpectedFormat :=
  entryBranch_c10 (.obj [(relKey, .num 0), (outKey, .str "x".data)])
    (.obj [(relKey, .num (mkRat 9 10)), (outKey, .str [])]) rfl rfl

/-- Claim C8.  End-to-end run: one input `"some text"`, a template
with all three placeholders, Tag output type with empty prefix and
suffix, and a transport that answers the correctly rendered prompt
with one entry of reliability `0.9` and output `"Animals"`.  The run
completes with exactly one API call, one document edit equal to
`" #auto-classifier #Animals-GPT "`, the single ensured note name
`Animals-GPT`, and a vault holding exactly one copy of the note. -/
theorem classifyTagRun_c8 :
    classifyTagRun "key".data true (some ["a".data]) c8Cfg ["some text".data] c8Api
      (fun _ _ => false) [] =
      ⟨.completed,
       ⟨1, [" #auto-classifier #Animals-GPT ".data], ["Animals-GPT".data],
        ["Topics/GPT/Animals-GPT.md".data]⟩⟩
    ∧ (["Topics/GPT/Animals-GPT.md".data] : List Str).count
        (notePath "Animals-GPT".data) = 1 := by
  exact ⟨rfl, by decide⟩

/-! ### Lemmas about the retry loop -/

/-- The loop makes at most as many network calls as it has fuel. -/
theorem callAPIAux_calls_le (t : ℕ → Outcome) (sig : ℕ → Bool) (f : ℕ) :
    ∀ a : ℕ, (callAPIAux t sig a f).calls ≤ f := by
  induction f with
  | zero => intro a; simp [callAPIAux]
  | succ f ih =>
    intro a
    rw [callAPIAux]
    by_cases hs : sig a
    · simp [hs]
    · rw [if_neg hs]
      cases ht : t a with
      | success c => simp
      | rateLimited => simpa using Nat.succ_le_succ (ih (a + 1))
      | failure => simp

/-- If the signal reads true at attempt `a + m`, the loop starting at
attempt `a` makes at most `m` network calls. -/
theorem callAPIAux_sig_le (t : ℕ → Outcome) (sig : ℕ → Bool) (f : ℕ) :
    ∀ a m : ℕ, sig (a + m) = true → (callAPIAux t sig a f).calls ≤ m := by
  induction f with
  | zero => intro a m _; simp [callAPIAux]
  | succ f ih =>
    intro a m hm
    rw [callAPIAux]
    by_cases hs : sig a
    · simp [hs]
    · rw [if_neg hs]
      have hm0 : m ≠ 0 := by
        intro h0
        rw [h0, Nat.add_zero] at hm
        exact hs hm
      cases ht : t a with
      | success c => simp; omega
      | rateLimited =>
        have hrec := ih (a + 1) (m - 1)
          (by rw [show a + 1 + (m - 1) = a + m by omega]; exact hm)
        simp only [CallTrace.mk.injEq]
        simp
        omega
      | failure => simp; omega

/-- Shifting a backoff-sleep list by one attempt. -/
theorem sleepsConsEq (a k : ℕ) (S : List ℕ) :
    2 ^ a * 2000 :: (List.map (fun j => 2 ^ (a + 1 + j) * 2000) (List.range k) ++ S) =
    List.map (fun j => 2 ^ (a + j) * 2000) (List.range (k + 1)) ++ S := by
  rw [List.range_succ_eq_map, List.map_cons, List.map_map, List.cons_append]
  simp only [Nat.add_zero]
  have hmap : List.map (fun j => 2 ^ (a + 1 + j) * 2000) (List.range k) =
      List.map ((fun j => 2 ^ (a + j) * 2000) ∘ Nat.succ) (List.range k) :=
    List.map_congr_left (fun j _ => by
      simp only [Function.comp_apply]
      rw [show a + Nat.succ j = a + 1 + j by omega])
  rw [hmap]

/-- Running the loop across `k` leading rate-limited attempts: the
trace is the trace of the loop started `k` attempts later, with `k`
more calls and the `k` backoff sleeps prepended. -/
theorem callAPIAux_shift (t : ℕ → Outcome) (sig : ℕ → Bool) (hsig : ∀ i, sig i = false) :
    ∀ k f a : ℕ, (∀ j, j < k → t (a + j) = .rateLimited) → k ≤ f →
    callAPIAux t sig a f =
      ⟨(callAPIAux t sig (a + k) (f - k)).result,
       (callAPIAux t sig (a + k) (f - k)).calls + k,
       ((List.range k).map (fun j => 2 ^ (a + j) * 2000)) ++
         (callAPIAux t sig (a + k) (f - k)).sleeps⟩ := by
  intro k
  induction k with
  | zero => intro f a _ _; simp
  | succ k ih =>
    intro f a hrate hkf
    cases f with
    | zero => omega
    | succ f =>
      have e1 : a + (k + 1) = (a + 1) + k := by omega
      have e2 : f + 1 - (k + 1) = f - k := by omega
      have hta : t a = .rateLimited := by
        have := hrate 0 (Nat.succ_pos k)
        rwa [Nat.add_zero] at this
      have hrec := ih f (a + 1)
        (fun j hj => by
          rw [show a + 1 + j = a + (j + 1) by omega]
          exact hrate (j + 1) (by omega))
        (by omega)
      rw [e1, e2, callAPIAux, if_neg (by simp [hsig a])]
      simp only [hta, hrec]
      simp only [CallTrace.mk.injEq]
      exact ⟨trivial, by omega, sleepsConsEq a k _⟩

/-- Claim C2.  With no cancellation: a transport that always returns
HTTP 429 makes the client sleep `2^i * 2000` ms after attempt `i` and
fail with the max-retries error after exactly `retries` attempts; a
transport that returns 429 on exactly the first `k < retries` attempts
and then succeeds makes the client return the success content after
`k + 1` attempts with exactly the sleeps `2^i * 2000` for
`i = 0 .. k-1` (so the total sleep is their sum); and in every case at
most `retries` attempts are made. -/
theorem callAPI_c2 (t : ℕ → Outcome) (r k : ℕ) (content : Str) :
    ((∀ i, t i = .rateLimited) →
      callAPI t (fun _ => false) r =
        ⟨.maxRetriesError, r, (List.range r).map (fun i => 2 ^ i * 2000)⟩)
    ∧ ((∀ i, i < k → t i = .rateLimited) → t k = .success content → k < r →
      callAPI t (fun _ => false) r =
        ⟨.ok content, k + 1, (List.range k).map (fun i => 2 ^ i * 2000)⟩)
    ∧ (∀ sig : ℕ → Bool, (callAPI t sig r).calls ≤ r) := by
  refine ⟨?_, ?_, ?_⟩
  · intro h
    have hs := callAPIAux_shift t (fun _ => false) (fun _ => rfl) r r 0
      (fun j _ => h (0 + j)) (Nat.le_refl r)
    unfold callAPI
    rw [hs]
    simp [callAPIAux]
  · intro h1 h2 h3
    have hs := callAPIAux_shift t (fun _ => false) (fun _ => rfl) k r 0
      (fun j hj => h1 (0 + j) (by omega)) (by omega)
    unfold callAPI
    rw [hs]
    obtain ⟨m, hm⟩ : ∃ m, r - k = m + 1 := ⟨r - k - 1, by omega⟩
    rw [hm, Nat.zero_add, callAPIAux, if_neg (by simp)]
    simp only [h2]
    simp only [CallTrace.mk.injEq]
    exact ⟨trivial, by omega, by simp⟩
  · intro sig
    exact callAPIAux_calls_le t sig r 0

/-- Witness for C2: with five attempts an always-429 transport fails
after five calls and the sleeps 2s, 4s, 8s, 16s, 32s; a transport
that returns 429 twice and then succeeds returns the content after
three calls with sleeps 2s and 4s. -/
theorem callAPI_c2_witness :
    callAPI (fun _ => .rateLimited) (fun _ => false) 5 =
      ⟨.maxRetriesError, 5, [2000, 4000, 8000, 16000, 32000]⟩
    ∧ callAPI (fun i => if i < 2 then .rateLimited else .success "ok".data)
        (fun _ => false) 5 = ⟨.ok "ok".data, 3, [2000, 4000]⟩ := by
  constructor
  · have h := (callAPI_c2 (fun _ => .rateLimited) 5 0 []).1 (fun _ => rfl)
    rw [h]
    rfl
  · have h := (callAPI_c2 (fun i => if i < 2 then .rateLimited else .success "ok".data)
        5 2 "ok".data).2.1
      (fun i hi => by
        have : i = 0 ∨ i = 1 := by omega
        rcases this with rfl | rfl <;> rfl)
      rfl (by omega)
    rw [h]
    rfl

/-- Claim C4.  A signal that reads aborted before the first attempt
makes the client throw the Aborted error with zero network calls (for
any positive retry budget); and since the signal is checked before
each attempt, a signal reading aborted at attempt `k` bounds the
number of network calls by `k`. -/
theorem callAPI_c4 (t : ℕ → Outcome) (sig : ℕ → Bool) (r k : ℕ) :
    (sig 0 = true → 0 < r → callAPI t sig r = ⟨.abortedError, 0, []⟩)
    ∧ (sig k = true → (callAPI t sig r).calls ≤ k) := by
  constructor
  · intro h hr
    obtain ⟨m, rfl⟩ : ∃ m, r = m + 1 := ⟨r - 1, by omega⟩
    unfold callAPI
    rw [callAPIAux, if_pos h]
  · intro h
    exact callAPIAux_sig_le t sig r 0 k (by simpa using h)

/-- Witness for C4: an already-aborted signal yields the Aborted error
and zero calls even with an always-successful transport; a signal
aborting from attempt 2 on bounds the calls by 2. -/
theorem callAPI_c4_witness :
    callAPI (fun _ => .success "x".data) (fun _ => true) 5 = ⟨.abortedError, 0, []⟩
    ∧ (callAPI (fun _ => .rateLimited) (fun i => decide (2 ≤ i)) 5).calls ≤ 2 :=
  ⟨(callAPI_c4 (fun _ => .success "x".data) (fun _ => true) 5 0).1 rfl (by omega),
   (callAPI_c4 (fun _ => .rateLimited) (fun i => decide (2 ≤ i)) 5 2).2 (by rfl)⟩

/-- Claim C6.  When attempt `k` fails with anything other than HTTP
429 (after `k` leading rate-limited attempts), the loop breaks: no
further attempt is made, no backoff sleep follows the failing attempt,
and the call throws the max-retries error. -/
theorem callAPI_c6 (t : ℕ → Outcome) (r k : ℕ)
    (h1 : ∀ i, i < k → t i = .rateLimited) (h2 : t k = .failure) (h3 : k < r) :
    callAPI t (fun _ => false) r =
      ⟨.maxRetriesError, k + 1, (List.range k).map (fun i => 2 ^ i * 2000)⟩ := by
  have hs := callAPIAux_shift t (fun _ => false) (fun _ => rfl) k r 0
    (fun j hj => h1 (0 + j) (by omega)) (by omega)
  unfold callAPI
  rw [hs]
  obtain ⟨m, hm⟩ : ∃ m, r - k = m + 1 := ⟨r - k - 1, by omega⟩
  rw [hm, Nat.zero_add, callAPIAux, if_neg (by simp)]
  simp only [h2]
  simp only [CallTrace.mk.injEq]
  exact ⟨trivial, by omega, by simp⟩

/-- Witness for C6: a 429 on attempt 0 and a hard failure on attempt 1
stop the loop after two calls with a single 2s sleep. -/
theorem callAPI_c6_witness :
    callAPI (fun i => if i = 0 then .rateLimited else .failure) (fun _ => false) 5 =
      ⟨.maxRetriesError, 2, [2000]⟩ := by
  have h := callAPI_c6 (fun i => if i = 0 then .rateLimited else .failure) 5 1
    (fun i hi => by
      have : i = 0 := by omega
      rw [this]
      rfl)
    rfl (by omega)
  rw [h]
  rfl

/-! ### Lemmas about the aggregation loop -/

/-- The aggregation fold appends exactly one token and one ensured
name per surviving entry, in order. -/
theorem entryStep_foldl (cfg : OutCfg) :
    ∀ (entries : List Json) (acc : Str × List Str),
    entries.foldl (entryStep cfg) acc =
      (acc.1 ++ ((entries.filter entrySurvives).map (fun e => tokenOf cfg e ++ [spC])).flatten,
       acc.2 ++ (entries.filter entrySurvives).map outputNameOf) := by
  intro entries
  induction entries with
  | nil => intro acc; simp
  | cons e rest ih =>
    intro acc
    rw [List.foldl_cons, ih]
    by_cases hf : entryFormatOk e
    · by_cases hl : entryLowRel e
      · have hstep : entryStep cfg acc e = acc := by
          simp [entryStep, hf, hl]
        have hsurv : entrySurvives e = false := by
          simp [entrySurvives, hf, hl]
        rw [hstep, List.filter_cons, hsurv]
        simp
      · have hstep : entryStep cfg acc e =
            (acc.1 ++ tokenOf cfg e ++ [spC], acc.2 ++ [outputNameOf e]) := by
          simp [entryStep, hf, hl]
        have hsurv : entrySurvives e = true := by
          simp [entrySurvives, hf, hl]
        rw [hstep, List.filter_cons, hsurv]
        simp [List.append_assoc]
    · have hstep : entryStep cfg acc e = acc := by
        simp [entryStep, hf]
      have hsurv : entrySurvives e = false := by
        simp [entrySurvives, hf]
      rw [hstep, List.filter_cons, hsurv]
      simp

/-- In the abort-on-bad-entry variant, a completed aggregation means
every entry survived validation. -/
theorem processEntriesTag_survives (cfg : OutCfg) :
    ∀ (entries : List Json) (acc res : Str × List Str),
    processEntriesTag cfg entries acc = some res → ∀ e ∈ entries, entrySurvives e = true := by
  intro entries
  induction entries with
  | nil =>
    intro acc res _ e he
    simp at he
  | cons e0 rest ih =>
    intro acc res hres e he
    rw [processEntriesTag] at hres
    by_cases hf : entryFormatOk e0
    · by_cases hl : entryLowRel e0
      · rw [if_neg (by simp [hf]), if_pos hl] at hres
        exact absurd hres (by simp)
      · rw [if_neg (by simp [hf]), if_neg hl] at hres
        rcases List.mem_cons.mp he with rfl | hmem
        · simp [entrySurvives, hf, hl]
        · exact ih _ res hres e hmem
    · rw [if_pos (by simp [hf])] at hres
      exact absurd hres (by simp)

/-- Claim C3.  For a reply that parses to an array of entries (within
the typed envelope: numeric reliabilities, string outputs): the
aggregate built by `classifyFile` is the marker followed by exactly
one formatted token per entry that survives validation, where an entry
is in the surviving sublist exactly when it passes the format check
and its reliability, a JSON number `q`, satisfies `0.2 < q`; entries
with `q ≤ 0.2` are skipped and contribute nothing.  In the abort
variant of `classifyTag`, whenever the aggregation completes at all,
every entry survived, so its aggregate too only contains tokens of
surviving entries. -/
theorem processEntries_c3 (cfg : OutCfg) (entries : List Json)
    (hwt : ∀ e ∈ entries, entryWellTyped e = true) :
    (processEntries cfg entries).1 =
      marker ++ ((entries.filter entrySurvives).map (fun e => tokenOf cfg e ++ [spC])).flatten
    ∧ (∀ e : Json, e ∈ entries.filter entrySurvives ↔ e ∈ entries ∧ entrySurvives e = true)
    ∧ (∀ e ∈ entries, entryFormatOk e = true →
        ∃ q : ℚ, getField e relKey = some (.num q) ∧
          (entrySurvives e = true ↔ mkRat 1 5 < q))
    ∧ (∀ res : Str × List Str, processEntriesTag cfg entries (marker, []) = some res →
        ∀ e ∈ entries, entrySurvives e = true) := by
  refine ⟨?_, ?_, ?_, ?_⟩
  · rw [processEntries, entryStep_foldl]
  · intro e
    simp [List.mem_filter]
  · intro e he hfmt
    have hw := hwt e he
    rw [entryWellTyped, Bool.and_eq_true] at hw
    have hrel : fieldTruthy e relKey = true := by
      rw [entryFormatOk, Bool.and_eq_true, Bool.and_eq_true] at hfmt
      exact hfmt.1.2
    rw [fieldTruthy] at hrel
    cases hg : getField e relKey with
    | none =>
      rw [hg] at hrel
      exact absurd hrel (by simp)
    | some v =>
      rw [hg] at hrel hw
      cases v with
      | num q =>
        refine ⟨q, rfl, ?_⟩
        have hlr : entryLowRel e = decide (q ≤ mkRat 1 5) := by
          rw [entryLowRel, hg]
          rfl
        rw [entrySurvives, hfmt, Bool.true_and, hlr]
        constructor
        · intro hb
          have : ¬ (q ≤ mkRat 1 5) := by simpa using hb
          exact lt_of_not_le this
        · intro hb
          simpa using not_le_of_lt hb
      | null => exact absurd hw.1 (by simp)
      | bool b => exact absurd hw.1 (by simp)
      | str s => exact absurd hw.1 (by simp)
      | arr es => exact absurd hw.1 (by simp)
      | obj fs => exact absurd hw.1 (by simp)
  · exact processEntriesTag_survives cfg entries (marker, [])

/-- Witness for C3: on one surviving entry (reliability 0.9), one
low-reliability entry (0.1) and one entry missing its output, the
aggregate is the marker followed by the single surviving token. -/
theorem processEntries_c3_witness :
    (processEntries ⟨.Tag, [], []⟩ c3Entries).1 =
      marker ++
        ((c3Entries.filter entrySurvives).map
          (fun e => tokenOf ⟨.Tag, [], []⟩ e ++ [spC])).flatten :=
  (processEntries_c3 ⟨.Tag, [], []⟩ c3Entries (by decide)).1

/-! ### Lemmas about first-occurrence replacement -/

/-- Shifting an occurrence across a leading character. -/
theorem matchAt_cons (c : Char) (t pat : Str) (j : ℕ) :
    MatchAt (c :: t) pat (j + 1) ↔ MatchAt t pat j := by
  simp [MatchAt]

/-- When no occurrence of the pattern starts inside the prefix `a`,
the first occurrence of the pattern in `a ++ pat ++ b` is at index
`a.length`. -/
theorem firstOccAux_append (pat b : Str) (hpat : pat ≠ []) :
    ∀ a : Str, (∀ j, j < a.length → ¬ MatchAt (a ++ (pat ++ b)) pat j) →
    firstOccAux pat (a ++ (pat ++ b)) = some a.length := by
  intro a
  induction a with
  | nil =>
    intro _
    cases pat with
    | nil => exact absurd rfl hpat
    | cons p pt =>
      show firstOccAux (p :: pt) ((p :: pt) ++ b) = some 0
      have htake : ((p :: pt) ++ b).take (p :: pt).length = p :: pt := List.take_left _ _
      rw [show (p :: pt) ++ b = p :: (pt ++ b) from rfl] at htake ⊢
      rw [firstOccAux, if_pos htake]
  | cons c a ih =>
    intro hno
    have h0 : ¬ MatchAt (c :: (a ++ (pat ++ b))) pat 0 := hno 0 (by simp)
    show firstOccAux pat (c :: (a ++ (pat ++ b))) = some (a.length + 1)
    rw [firstOccAux, if_neg (by simpa [MatchAt] using h0)]
    rw [ih (fun j hj => by
      have := hno (j + 1) (Nat.succ_lt_succ hj)
      exact fun hm => this ((matchAt_cons c (a ++ (pat ++ b)) pat j).mpr hm))]
    rfl

/-- Splicing a first-occurrence replacement: when no occurrence of the
pattern starts inside `a`, replacing in `a ++ pat ++ b` substitutes
exactly the shown occurrence. -/
theorem jsReplaceFirst_splice (pat b rep a : Str) (hpat : pat ≠ [])
    (hno : ∀ j, j < a.length → ¬ MatchAt (a ++ (pat ++ b)) pat j) :
    jsReplaceFirst (a ++ (pat ++ b)) pat rep = a ++ substDollar pat a b rep ++ b := by
  unfold jsReplaceFirst
  rw [firstOccAux_append pat b hpat a hno]
  have htake : (a ++ (pat ++ b)).take a.length = a := List.take_left _ _
  have hdrop : (a ++ (pat ++ b)).drop (a.length + pat.length) = b := by
    rw [show a.length + pat.length = (a ++ pat).length by simp, ← List.append_assoc]
    exact List.drop_left _ _
  simp only [htake, hdrop]

/-- A replacement string that contains no dollar character is
substituted literally. -/
theorem substDollar_id (m bef aft : Str) :
    ∀ rep : Str, '$' ∉ rep → substDollar m bef aft rep = rep := by
  intro rep
  induction rep with
  | nil => intro _; rfl
  | cons c rest ih =>
    intro h
    have hc : c ≠ '$' := fun hcc => h (hcc ▸ List.mem_cons_self c rest)
    have hrest : '$' ∉ rest := fun hm => h (List.mem_cons_of_mem c hm)
    cases rest with
    | nil => rfl
    | cons d r2 =>
      rw [substDollar, if_neg hc, ih hrest]

/-- Decimal digits are not the dollar character. -/
theorem digitChar_ne_dollar : ∀ d : ℕ, d < 10 → Nat.digitChar d ≠ '$' := by
  decide

/-- The decimal-digit accumulator never produces a dollar
character. -/
theorem natDigitsAux_noDollar :
    ∀ (f n : ℕ) (acc : Str), '$' ∉ acc → '$' ∉ natDigitsAux f n acc := by
  intro f
  induction f with
  | zero =>
    intro n acc h
    simpa [natDigitsAux] using h
  | succ f ih =>
    intro n acc h
    have hacc1 : '$' ∉ Nat.digitChar (n % 10) :: acc := by
      intro hm
      rcases List.mem_cons.mp hm with he | hm2
      · exact digitChar_ne_dollar (n % 10) (Nat.mod_lt n (by omega)) he.symm
      · exact h hm2
    rw [natDigitsAux]
    by_cases hn : n < 10
    · simpa [hn] using hacc1
    · simpa [hn] using ih (n / 10) _ hacc1

/-- The rendered max-tags text never contains a dollar character. -/
theorem maxTagsStr_noDollar (n : ℕ) : '$' ∉ maxTagsStr n := by
  rw [maxTagsStr]
  by_cases hn : n = 0
  · simp only [hn, if_pos rfl]
    decide
  · rw [if_neg hn, natDigits]
    exact natDigitsAux_noDollar _ _ _ (by simp)

/-- Claim C5, counterexample.  The claim predicts that rendering
replaces exactly the first occurrence of each placeholder in the
template with the corresponding text.  First part: with the input text
itself containing a reference placeholder, the reference substitution
hits the injected copy instead of the template's own placeholder, so
the template's placeholder survives (the claim predicts the template
placeholder replaced and the injected text kept).  Second part: an
input text containing `$$` is not substituted literally (the claim
predicts the literal input text). -/
theorem renderPrompt_c5_cex :
    (renderPrompt "\x7b\x7binput\x7d\x7d|\x7b\x7breference\x7d\x7d|\x7b\x7bmax_tags\x7d\x7d".data
        "\x7b\x7breference\x7d\x7d".data ["R".data] 3 = "R|\x7b\x7breference\x7d\x7d|3".data
      ∧ "R|\x7b\x7breference\x7d\x7d|3".data ≠ "\x7b\x7breference\x7d\x7d|R|3".data)
    ∧ (renderPrompt "<\x7b\x7binput\x7d\x7d>\x7b\x7breference\x7d\x7d\x7b\x7bmax_tags\x7d\x7d".data
        "$$".data [] 1 = "<$>1".data
      ∧ "<$>1".data ≠ "<$$>1".data) :=
  ⟨⟨rfl, by decide⟩, ⟨rfl, by decide⟩⟩

/-- Claim C5, amended.  Rendering substitutes sequentially: first
`(input)`, then `(reference)`, then `(max_tags)`, each replacing the
first occurrence in the current string and interpreting `$`-sequences
in the substituted text.  Provided the input and joined-reference
texts contain no dollar character, and the first occurrence of each
placeholder at its step is the one inherited from the template (the
decompositions below), rendering replaces those occurrences with: the
input text; the references joined by `,` (the empty list giving the
empty string); and `unlimited` exactly when `maxTags = 0`, otherwise
its decimal string. -/
theorem renderPrompt_c5 (tmpl input : Str) (refs : List Str) (mt : ℕ)
    (aI bI aR bR aM bM : Str)
    (hdIn : '$' ∉ input) (hdRef : '$' ∉ joinComma refs)
    (h1 : tmpl = aI ++ (phInput ++ bI))
    (h1no : ∀ j, j < aI.length → ¬ MatchAt tmpl phInput j)
    (h2 : aI ++ input ++ bI = aR ++ (phRef ++ bR))
    (h2no : ∀ j, j < aR.length → ¬ MatchAt (aI ++ input ++ bI) phRef j)
    (h3 : aR ++ joinComma refs ++ bR = aM ++ (phMax ++ bM))
    (h3no : ∀ j, j < aM.length → ¬ MatchAt (aR ++ joinComma refs ++ bR) phMax j) :
    renderPrompt tmpl input refs mt =
      aM ++ (if mt = 0 then "unlimited".data else natDigits mt) ++ bM := by
  subst h1
  have e1 : jsReplaceFirst (aI ++ (phInput ++ bI)) phInput input = aI ++ input ++ bI := by
    rw [jsReplaceFirst_splice phInput bI input aI (by decide) h1no,
      substDollar_id _ _ _ input hdIn]
  have e2 : jsReplaceFirst (aI ++ input ++ bI) phRef (joinComma refs) =
      aR ++ joinComma refs ++ bR := by
    rw [h2, jsReplaceFirst_splice phRef bR (joinComma refs) aR (by decide) (h2 ▸ h2no),
      substDollar_id _ _ _ _ hdRef]
  have e3 : jsReplaceFirst (aR ++ joinComma refs ++ bR) phMax (maxTagsStr mt) =
      aM ++ maxTagsStr mt ++ bM := by
    rw [h3, jsReplaceFirst_splice phMax bM (maxTagsStr mt) aM (by decide) (h3 ▸ h3no),
      substDollar_id _ _ _ _ (maxTagsStr_noDollar mt)]
  show jsReplaceFirst (jsReplaceFirst (jsReplaceFirst (aI ++ (phInput ++ bI)) phInput input)
      phRef (joinComma refs)) phMax (maxTagsStr mt) = _
  rw [e1, e2, e3]
  rfl

/-- Witness for C5: a template with the three placeholders in
input-reference-max order, input `hi`, references `x` and `y` and
unlimited max tags renders as predicted. -/
theorem renderPrompt_c5_witness :
    renderPrompt "A\x7b\x7binput\x7d\x7dB\x7b\x7breference\x7d\x7dC\x7b\x7bmax_tags\x7d\x7dD".data
      "hi".data ["x".data, "y".data] 0 = "AhiBx,yCunlimitedD".data := by
  have h := renderPrompt_c5
    "A\x7b\x7binput\x7d\x7dB\x7b\x7breference\x7d\x7dC\x7b\x7bmax_tags\x7d\x7dD".data
    "hi".data ["x".data, "y".data] 0
    "A".data "B\x7b\x7breference\x7d\x7dC\x7b\x7bmax_tags\x7d\x7dD".data
    "AhiB".data "C\x7b\x7bmax_tags\x7d\x7dD".data
    "AhiBx,yC".data "D".data
    (by decide) (by decide) (by decide) (by decide) (by decide) (by decide)
    (by decide) (by decide)
  rw [h]
  rfl

end AutoClassifier
